import Mathlib

/-!
Verification of the step/workflow execution engine of the ai-agent-sdk
orchestrator.  The TypeScript sources are shallowly embedded: JS values
are modelled by the inductive `Val` (thrown values are also `Val`s, since
JS can throw anything, including `undefined`), fallible code returns
`Except Val`, and stateful code threads explicit state records.  Real
time is modelled by `Nat` millisecond clocks passed explicitly; the
cooperative single-threaded runtime makes `Promise.all` fan-outs
equivalent to running the branches in order, which is how they are
modelled here.
-/

set_option maxRecDepth 10000

namespace Orchestrator

/-- A JS value as it flows through the engine: `undef` is JavaScript's
`undefined`, `verr uid msg` is an `Error` object with identity `uid`
(object identity, so that re-raising "the same instance" is expressible)
and message `msg`. -/
inductive Val : Type where
  | undef : Val
  | vnull : Val
  | vbool : Bool → Val
  | vnum : Int → Val
  | vstr : String → Val
  | varr : List Val → Val
  | vobj : List (String × Val) → Val
  | verr : Nat → String → Val
deriving Repr

/-- JS truthiness of a value (`if (x)`): `undefined`, `null`, `false`,
`0` and `""` are falsy, everything else truthy. -/
def Val.truthy : Val → Bool
  | .undef => false
  | .vnull => false
  | .vbool b => b
  | .vnum n => n != 0
  | .vstr s => s ≠ ""
  | _ => true

mutual

/-- `JSON.stringify`, restricted to the value forms the engine produces.
`undefined` and `Error` objects serialize as JSON `null`-ish placeholders;
the claims only exercise the plain-data cases. -/
def jsonStringify : Val → String
  | .undef => "null"
  | .vnull => "null"
  | .vbool b => if b then "true" else "false"
  | .vnum n => toString n
  | .vstr s => "\x22" ++ s ++ "\x22"
  | .varr xs => "[" ++ String.intercalate "," (jsonStringifyList xs) ++ "]"
  | .vobj fs => "\x7b" ++ String.intercalate "," (jsonStringifyFields fs) ++ "\x7d"
  | .verr _ _ => "\x7b\x7d"

/-- Serializations of the elements of a JSON array, in order. -/
def jsonStringifyList : List Val → List String
  | [] => []
  | v :: rest => jsonStringify v :: jsonStringifyList rest

/-- Serializations of the fields of a JSON object, in order. -/
def jsonStringifyFields : List (String × Val) → List String
  | [] => []
  | f :: rest =>
      ("\x22" ++ f.1 ++ "\x22:" ++ jsonStringify f.2) :: jsonStringifyFields rest

end

/-! ## Retry helper (src/utils/retry.ts) -/

/-- `RetryOptions` from src/utils/retry.ts.  `maxAttempts` is an `Int`
because the JS number is unconstrained (claim C10 exercises
non-positive values); the optional fields default via JS `||`. -/
structure RetryOptions where
  maxAttempts : Int
  backoffMs : Nat
  backoffMultiplier : Option Nat := none
  maxBackoffMs : Option Nat := none

/-- JS `x || d` on an optional numeric option: `undefined` and `0` are
falsy, so both fall back to the default. -/
def jsOr (x : Option Nat) (d : Nat) : Nat :=
  match x with
  | some v => if v = 0 then d else v
  | none => d

/-- Observable outcome of a `withRetry` call: the settled result, the
number of invocations of the operation, the `(attempt, error)` pairs
passed to `onRetry`, and the backoff delays slept, in order. -/
structure RetryTrace where
  result : Except Val Val
  calls : Nat
  retries : List (Nat × Val)
  delays : List Nat
deriving Repr

/-- The attempt loop of `withRetry`.  `attempt` is the 1-based loop
counter; `remaining` counts the attempts the `for` loop will still run
(`maxAttempts - attempt + 1`); `lastError` mirrors the `lastError`
variable, uninitialized (`none` = JS `undefined`) until a catch runs.
When the loop exits without returning, the trailing `throw lastError!`
throws whatever `lastError` holds — `undefined` if the loop never ran. -/
def withRetryGo (fn : Nat → Except Val Val) (opts : RetryOptions) :
    Nat → Nat → Option Val → Nat → List (Nat × Val) → List Nat → RetryTrace
  | _, 0, lastError, calls, retries, delays =>
      { result := .error (lastError.getD .undef), calls := calls,
        retries := retries, delays := delays }
  | attempt, r + 1, _, calls, retries, delays =>
      match fn attempt with
      | .ok v =>
          { result := .ok v, calls := calls + 1, retries := retries,
            delays := delays }
      | .error e =>
          if r = 0 then
            { result := .error e, calls := calls + 1, retries := retries,
              delays := delays }
          else
            let backoff :=
              min (opts.backoffMs * (jsOr opts.backoffMultiplier 2) ^ (attempt - 1))
                (jsOr opts.maxBackoffMs 30000)
            withRetryGo fn opts (attempt + 1) r (some e) (calls + 1)
              (retries ++ [(attempt, e)]) (delays ++ [backoff])

/-- `withRetry` from src/utils/retry.ts.  The operation is modelled as a
function from the (1-based) invocation number to its outcome, which
captures an operation whose behaviour varies between attempts. -/
def withRetry (fn : Nat → Except Val Val) (opts : RetryOptions) : RetryTrace :=
  withRetryGo fn opts 1 opts.maxAttempts.toNat none 0 [] []

/-! ## Plugin hook pipeline (src/plugins/manager.ts) -/

/-- One entry of a per-hook-name list in `PluginManager.hooks`: the
plugin's enabled flag and its implementation of the hook, if any
(`executeHook` re-checks `plugin[hookName]` at call time).  A hook
returning JS `undefined` is modelled as `.ok .undef`; a throwing hook as
`.error e`. -/
structure HookEntry where
  pluginName : String
  enabled : Bool
  fn : Option (Val → Except Val Val)

/-- The loop body of `PluginManager.executeHook` over the sorted hook
list, threading the first argument: a hook's non-`undefined` return
value replaces the running result and becomes the next hook's input; a
throwing hook is logged and skipped unless the hook name starts with
"onError", in which case the error is re-raised. -/
def executeHookGo (hookName : String) : List HookEntry → Val → Except Val Val
  | [], result => .ok result
  | h :: rest, result =>
      if !h.enabled then executeHookGo hookName rest result
      else
        match h.fn with
        | none => executeHookGo hookName rest result
        | some f =>
            match f result with
            | .ok hookResult =>
                match hookResult with
                | .undef => executeHookGo hookName rest result
                | r => executeHookGo hookName rest r
            | .error e =>
                if hookName.startsWith "onError" then .error e
                else executeHookGo hookName rest result

/-- `PluginManager.executeHook(hookName, arg0, ...)`: if no hooks are
registered for the name, the first argument passes through unchanged;
otherwise the chain runs. -/
def executeHook (hookName : String) (hooks : List HookEntry) (arg0 : Val) :
    Except Val Val :=
  executeHookGo hookName hooks arg0

/-! ## Rate limiter plugin (src/plugins/builtin/rate-limiter.ts) -/

/-- A JS `Map` keyed by strings, preserving insertion order. -/
def mapGet {α : Type} : List (String × α) → String → Option α
  | [], _ => none
  | (k', v) :: rest, k => if k' = k then some v else mapGet rest k

/-- `Map.set`: updating an existing key keeps its position; a new key is
appended. -/
def mapSet {α : Type} : List (String × α) → String → α → List (String × α)
  | [], k, v => [(k, v)]
  | (k', v') :: rest, k, v =>
      if k' = k then (k, v) :: rest else (k', v') :: mapSet rest k v

/-- `RateLimitEntry` from rate-limiter.ts: hourly `count`/`resetTime`
and per-minute `burstCount`/`burstResetTime`, times in ms. -/
structure RateLimitEntry where
  count : Nat
  resetTime : Nat
  burstCount : Nat
  burstResetTime : Nat
deriving Repr, DecidableEq

/-- The mutable state of a `RateLimiterPlugin` instance together with
its configured limits. -/
structure RateLimiterState where
  limits : List (String × RateLimitEntry)
  requestsPerMinute : Nat := 60
  requestsPerHour : Nat := 1000
  burstLimit : Nat := 10
deriving Repr

/-- `createEntry(now)`. -/
def createEntry (now : Nat) : RateLimitEntry :=
  { count := 0, resetTime := now + 3600000,
    burstCount := 0, burstResetTime := now + 60000 }

/-- Writes back an in-place mutation of the entry for `key`: visible in
the map only when the entry actually came from the map
(`checkRateLimit` mutates `this.limits.get(key) || this.createEntry(now)`
without ever calling `set`, so mutations of a fresh entry are lost). -/
def commitEntry (st : RateLimiterState) (key : String) (e : RateLimitEntry) :
    RateLimiterState :=
  if (mapGet st.limits key).isSome then
    { st with limits := mapSet st.limits key e }
  else st

/-- `checkRateLimit(key)` at time `now`: burst window check (resetting
the burst counter when the window has rolled over), then hourly check
(resetting the hourly counter likewise); counter resets mutate the
stored entry in place and therefore persist even when a later check
fails. -/
def checkRateLimit (st : RateLimiterState) (now : Nat) (key : String) :
    Bool × RateLimiterState :=
  let entry0 := (mapGet st.limits key).getD (createEntry now)
  if now < entry0.burstResetTime ∧ st.burstLimit ≤ entry0.burstCount then
    (false, st)
  else
    let entry1 :=
      if now < entry0.burstResetTime then entry0
      else { entry0 with burstCount := 0, burstResetTime := now + 60000 }
    let st1 := commitEntry st key entry1
    if now < entry1.resetTime ∧ st.requestsPerHour ≤ entry1.count then
      (false, st1)
    else
      let entry2 :=
        if now < entry1.resetTime then entry1
        else { entry1 with count := 0, resetTime := now + 3600000 }
      (true, commitEntry st1 key entry2)

/-- `recordRequest(key)` at time `now`: increments both counters and
stores the entry. -/
def recordRequest (st : RateLimiterState) (now : Nat) (key : String) :
    RateLimiterState :=
  let entry := (mapGet st.limits key).getD (createEntry now)
  let bumped : RateLimitEntry :=
    { entry with count := entry.count + 1, burstCount := entry.burstCount + 1 }
  { st with limits := mapSet st.limits key bumped }

/-- `RateLimiterPlugin.beforeAgentExecution` for a given rate-limit
`key` (the default key generator produces `agentId:userId`): throws a
rate-limit error when `checkRateLimit` fails, otherwise records the
request.  The state is returned in both cases since a failed check can
still have mutated a stored entry. -/
def rlBeforeAgentExecution (st : RateLimiterState) (now : Nat) (key : String) :
    Except Val Unit × RateLimiterState :=
  let (ok, st') := checkRateLimit st now key
  if ok then (.ok (), recordRequest st' now key)
  else (.error (.verr 0 ("Rate limit exceeded for " ++ key)), st')

/-- Fixture: a rate limiter with `burstLimit = 3` and no traffic. -/
def rlSt0 : RateLimiterState := { limits := [], burstLimit := 3 }

/-- Fixture: first call at t = 0 ms. -/
def rlCall1 := rlBeforeAgentExecution rlSt0 0 "agent1:anonymous"

/-- Fixture: second call at t = 10 ms. -/
def rlCall2 := rlBeforeAgentExecution rlCall1.2 10 "agent1:anonymous"

/-- Fixture: third call at t = 20 ms. -/
def rlCall3 := rlBeforeAgentExecution rlCall2.2 20 "agent1:anonymous"

/-- Fixture: fourth call at t = 30 ms. -/
def rlCall4 := rlBeforeAgentExecution rlCall3.2 30 "agent1:anonymous"

/-- Fixture: fifth call at t = 60000 ms, in the next burst window. -/
def rlCall5 := rlBeforeAgentExecution rlCall4.2 60000 "agent1:anonymous"

/-! ## Cache plugin (src/plugins/builtin/cache.ts) -/

/-- Deletes a key from a JS `Map` modelled as an assoc list. -/
def mapDelete {α : Type} : List (String × α) → String → List (String × α)
  | [], _ => []
  | (k', v) :: rest, k =>
      if k' = k then rest else (k', v) :: mapDelete rest k

/-- Wraps an integer to JS signed 32-bit, as `x & x` / `x << n` do. -/
def toInt32 (x : Int) : Int :=
  let m := x % 4294967296
  if m < 2147483648 then m else m - 4294967296

/-- One step of `simpleHash`'s loop:
`hash = (hash << 5) - hash + char; hash = hash & hash`.  The shift is an
int32 operation (wrapping), the subtraction and addition are exact, and
the final `& hash` truncates back to int32. -/
def simpleHashStep (h : Int) (c : Char) : Int :=
  toInt32 (toInt32 (h * 32) - h + (c.toNat : Int))

/-- Converts a base-36 digit to its character, lowercase as in JS
`Number.prototype.toString(36)`. -/
def base36Char (d : Nat) : Char :=
  if d < 10 then Char.ofNat (48 + d) else Char.ofNat (87 + d)

/-- Digits of `n` in base 36, most significant first.  The first
argument is structural fuel (any value `≥` the digit count, supplied as
`n + 1` below, makes the function total and keeps it kernel-reducible). -/
def toBase36Aux : Nat → Nat → List Char → List Char
  | 0, n, acc => base36Char (n % 36) :: acc
  | fuel + 1, n, acc =>
      if n < 36 then base36Char n :: acc
      else toBase36Aux fuel (n / 36) (base36Char (n % 36) :: acc)

/-- JS `Math.abs(n).toString(36)` for a natural number. -/
def toBase36 (n : Nat) : String :=
  String.mk (toBase36Aux (n + 1) n [])

/-- `CachePlugin.simpleHash(str)`: the 32-bit rolling hash, absolute
value rendered in base 36.  Characters are modelled by their code
points, which agrees with `charCodeAt` on the basic multilingual
plane — all keys the engine builds are such strings. -/
def simpleHash (s : String) : String :=
  toBase36 (s.data.foldl simpleHashStep 0).natAbs

/-- `CachePlugin.defaultKeyGenerator(agentId, prompt)`. -/
def defaultKeyGenerator (agentId prompt : String) : String :=
  "agent:" ++ agentId ++ ":" ++ simpleHash (agentId ++ prompt)

/-- A cache entry: the cached value and its insertion timestamp. -/
structure CacheEntry where
  value : Val
  timestamp : Nat
deriving Repr

/-- State of a `CachePlugin` instance. -/
structure CacheState where
  entries : List (String × CacheEntry)
  maxSize : Nat := 1000
  ttlMs : Nat := 300000
deriving Repr

/-- `CachePlugin.get(key)` at time `now`: `none` models JS `null`; an
expired entry is deleted on access. -/
def cacheGet (st : CacheState) (now : Nat) (key : String) :
    Option Val × CacheState :=
  match mapGet st.entries key with
  | none => (none, st)
  | some e =>
      if st.ttlMs < now - e.timestamp then
        (none, { st with entries := mapDelete st.entries key })
      else (some e.value, st)

/-- `CachePlugin.set(key, value)` at time `now`: evicts expired entries,
then evicts the oldest (first-inserted) entry if the size bound is hit,
then stores the value with the current timestamp. -/
def cacheSet (st : CacheState) (now : Nat) (key : String) (v : Val) :
    CacheState :=
  let cleaned := st.entries.filter (fun e => !(st.ttlMs < now - e.2.timestamp))
  let sized := if st.maxSize ≤ cleaned.length then cleaned.tail else cleaned
  { st with entries := mapSet sized key ⟨v, now⟩ }

/-- `CachePlugin.beforeAgentExecution(agentId, prompt, context)` at time
`now`: on a (truthy) cache hit, sets `context.variables._cached` and
`_cachedResult`; returns the updated variables and cache state. -/
def cacheBeforeAgentExecution (st : CacheState) (now : Nat)
    (agentId prompt : String) (vars : List (String × Val)) :
    List (String × Val) × CacheState :=
  let key := defaultKeyGenerator agentId prompt
  let (cached, st') := cacheGet st now key
  match cached with
  | some v =>
      if v.truthy then
        (mapSet (mapSet vars "_cached" (.vbool true)) "_cachedResult" v, st')
      else (vars, st')
  | none => (vars, st')

/-- `CachePlugin.afterAgentExecution(agentId, result, context)` at time
`now`: if the execution was served from cache, returns the cached result
without re-storing; otherwise stores the result under a key derived from
`JSON.stringify(context.variables.input)` — note: *not* from the prompt
the before-hook looked up with. -/
def cacheAfterAgentExecution (st : CacheState) (now : Nat) (agentId : String)
    (result : Val) (vars : List (String × Val)) : Val × CacheState :=
  if ((mapGet vars "_cached").getD .undef).truthy then
    (((mapGet vars "_cachedResult").getD .undef), st)
  else
    let key := defaultKeyGenerator agentId
      (jsonStringify ((mapGet vars "input").getD .undef))
    (result, cacheSet st now key result)

/-- The prompt a `Step` of type `agent` passes to the agent (and that a
hook-pipeline wiring would hand to `beforeAgentExecution`):
`typeof input === "string" ? input : JSON.stringify(input)`
(src/core/step.ts `executeAgent`). -/
def stepPrompt : Val → String
  | .vstr s => s
  | v => jsonStringify v

/-- Fixture: the cache-plugin before-hook of the first execution with
string input "hi" (prompt = the input itself, per `Step.executeAgent`). -/
def cacheStrB1 : List (String × Val) × CacheState :=
  cacheBeforeAgentExecution { entries := [] } 0 "a"
    (stepPrompt (.vstr "hi")) [("input", .vstr "hi")]

/-- Fixture: the after-hook of the first execution, caching the result. -/
def cacheStrA1 : Val × CacheState :=
  cacheAfterAgentExecution cacheStrB1.2 0 "a" (.vstr "resp") cacheStrB1.1

/-- Fixture: the before-hook of the second, identical execution at
t = 1000 ms. -/
def cacheStrB2 : List (String × Val) × CacheState :=
  cacheBeforeAgentExecution cacheStrA1.2 1000 "a"
    (stepPrompt (.vstr "hi")) [("input", .vstr "hi")]

/-- Fixture: the first execution's before-hook for the object-input
cache scenario (prompt = JSON-serialized input). -/
def cacheObjB1 : List (String × Val) × CacheState :=
  cacheBeforeAgentExecution { entries := [], maxSize := 1000, ttlMs := 300000 }
    0 "a" (jsonStringify (.vobj [("m", .vstr "hi")]))
    [("input", .vobj [("m", .vstr "hi")])]

/-- Fixture: the first execution's after-hook, caching "resp". -/
def cacheObjA1 : Val × CacheState :=
  cacheAfterAgentExecution cacheObjB1.2 0 "a" (.vstr "resp") cacheObjB1.1

/-- Fixture: the second execution's before-hook at t = 1000 ms. -/
def cacheObjB2 : List (String × Val) × CacheState :=
  cacheBeforeAgentExecution cacheObjA1.2 1000 "a"
    (jsonStringify (.vobj [("m", .vstr "hi")]))
    [("input", .vobj [("m", .vstr "hi")])]

/-- Fixture: the second execution's after-hook (served from cache). -/
def cacheObjA2 : Val × CacheState :=
  cacheAfterAgentExecution cacheObjB2.2 1000 "a" (.vstr "resp") cacheObjB2.1

/-- Fixture: the third execution's before-hook at t = 300001 ms, past
the TTL. -/
def cacheObjB3 : List (String × Val) × CacheState :=
  cacheBeforeAgentExecution cacheObjA2.2 300001 "a"
    (jsonStringify (.vobj [("m", .vstr "hi")]))
    [("input", .vobj [("m", .vstr "hi")])]

/-! ## Metrics collector (src/observability/metrics.ts) -/

/-- The four metric types. -/
inductive MetricType : Type where
  | counter | gauge | histogram | timer
deriving Repr, DecidableEq

/-- One record of `MetricsCollector.metrics` (the timestamp is omitted:
no claim filters by time). -/
structure MetricRec where
  name : String
  value : Int
  tags : Option (List (String × String)) := none
  type : MetricType
deriving Repr, DecidableEq

/-- `MetricsCollector.addMetric`: append, then keep only the most
recent `maxMetrics = 100000` records. -/
def addMetric (ms : List MetricRec) (m : MetricRec) : List MetricRec :=
  let ms' := ms ++ [m]
  if 100000 < ms'.length then ms'.drop (ms'.length - 100000) else ms'

/-- `MetricsCollector.recordTimer(name, duration, tags)` as it affects
the `metrics` series (the parallel `timers` map is not consulted by
`getSummary`). -/
def recordTimer (ms : List MetricRec) (name : String) (duration : Int)
    (tags : Option (List (String × String)) := none) : List MetricRec :=
  addMetric ms { name := name, value := duration, tags := tags, type := .timer }

/-- Insertion of a value into an ascending list, modelling one step of
JS `Array.prototype.sort((a, b) => a - b)` (ascending numeric sort). -/
def insertSorted (x : Int) : List Int → List Int
  | [] => [x]
  | y :: rest => if x ≤ y then x :: y :: rest else y :: insertSorted x rest

/-- Ascending numeric sort (`values.sort((a, b) => a - b)`). -/
def sortAsc (l : List Int) : List Int := l.foldr insertSorted []

/-- `MetricsCollector.percentile(sortedValues, p)`: the value at rank
`ceil(n * p) - 1`, clamped to be non-negative; 0 on an empty series.
`ceil(n * p)` for the exact rational `p = p.num / p.den` is computed as
`(n * p.num + p.den - 1) / p.den` rounded down (the JS floats
0.5/0.95/0.99 behave as these exact rationals at every input the
claims exercise). -/
def percentile (sorted : List Int) (p : ℚ) : Int :=
  if sorted.length = 0 then 0
  else
    let ceilNP : Int :=
      Int.ediv ((sorted.length : Int) * p.num + (p.den : Int) - 1) (p.den : Int)
    sorted.getD (Int.toNat (max 0 (ceilNP - 1))) 0

/-- `MetricSummary` from metrics.ts. -/
structure MetricSummary where
  name : String
  count : Nat
  sum : Int
  min : Int
  max : Int
  avg : ℚ
  p50 : Int
  p95 : Int
  p99 : Int
deriving Repr, DecidableEq

/-- `MetricsCollector.getSummary(name)` (no tag filter): filters the
full metric series by name, sorts the values ascending and reports
count/sum/min/max/avg and the rank-based percentiles. -/
def getSummary (ms : List MetricRec) (name : String) : Option MetricSummary :=
  let metrics := ms.filter (fun m => m.name = name)
  if metrics.length = 0 then none
  else
    let values := sortAsc (metrics.map (·.value))
    let sum := values.foldl (· + ·) 0
    some { name := name
           count := values.length
           sum := sum
           min := values.headD 0
           max := values.getLastD 0
           avg := Rat.divInt sum (values.length : Int)
           p50 := percentile values (mkRat 1 2)
           p95 := percentile values (mkRat 95 100)
           p99 := percentile values (mkRat 99 100) }

/-! ## Step and Workflow execution (src/core/step.ts, core/workflow.ts) -/

/-- One finalized `ExecutionStep` history record (unique ids and
wall-clock times are dropped; a success sets `output`, a failure sets
`error`). -/
structure HRec where
  stepId : String
  agentId : Option String
  input : Val
  output : Option Val
  error : Option Val
deriving Repr

/-- The `ExecutionContext` fields the execution engine reads and
writes; `vars` models `context.variables` (`variables` is a reserved
word in Lean). -/
structure Ctx where
  stepId : String
  vars : List (String × Val)
  history : List HRec
deriving Repr

/-- The five step types. -/
inductive StepType : Type where
  | agent | tool | condition | loop | parallel
deriving Repr, DecidableEq

/-- The scalar configuration of a `Step` (everything but the nested
steps).  The `condition` predicate is an arbitrary function of the
context, as in the source. -/
structure SMeta where
  id : String
  type : StepType
  agentId : Option String := none
  toolName : Option String := none
  cond : Option (Ctx → Bool) := none
  iterations : Option Nat := none
  onSuccess : Option String := none
  onFailure : Option String := none

/-- A `Step` with its nested steps. -/
inductive StepK : Type where
  | mk : SMeta → List StepK → StepK

/-- The scalar configuration of a step. -/
def StepK.meta : StepK → SMeta
  | .mk m _ => m

/-- The nested steps of a step. -/
def StepK.substeps : StepK → List StepK
  | .mk _ ss => ss

/-- The step's id. -/
def StepK.idOf (s : StepK) : String := s.meta.id

/-- `steps.find((s) => s.id === target)`. -/
def findStep : List StepK → String → Option StepK
  | [], _ => none
  | s :: rest, target => if s.idOf = target then some s else findStep rest target

/-- The orchestrator facade a `Step` resolves agents and tools
through: `getAgent(id)` yields the modelled `Agent.execute` (prompt and
context in, response out, no context mutation — the source Agent only
reads the context to build its prompt), and the tool table is the
flattened first-match-wins search over every registered agent's tools
performed by `Step.executeTool`. -/
structure Env where
  agents : List (String × (String → Ctx → Except Val Val))
  tools : List (String × (Val → Ctx → Except Val Val))

/-- Whether an `Except` is an error. -/
def isErr {ε α : Type} : Except ε α → Bool
  | .error _ => true
  | .ok _ => false

/-- Whether a value is JS `null`. -/
def isVNull : Val → Bool
  | .vnull => true
  | _ => false

/-- The start-of-execution history record `Step.execute` pushes before
dispatching. -/
def startRec (s : StepK) (input : Val) : HRec :=
  { stepId := s.idOf, agentId := s.meta.agentId, input := input,
    output := none, error := none }

/-- Finalizing the history record pushed at index `idx`: the success
path stores the output, the failure path stores the error, and the
result is passed through. -/
def finalizeStep (rec : HRec) (idx : Nat) : Except Val Val × Ctx → Except Val Val × Ctx
  | (.ok v, c2) => (.ok v, { c2 with history := c2.history.set idx { rec with output := some v } })
  | (.error e, c2) => (.error e, { c2 with history := c2.history.set idx { rec with error := some e } })

mutual

/-- `Step.execute(input, context, orchestrator)`: pushes a history
record, dispatches on the step type, finalizes the record with the
output or the error, and returns the result.  The first argument is
structural fuel bounding the nesting depth (running out of fuel is an
artifact error of the embedding; every theorem below is conditioned on
what the execution actually returns). -/
def execStep (env : Env) : Nat → StepK → Val → Ctx → Except Val Val × Ctx
  | 0, _, _, c => (.error (.verr 0 "out of fuel"), c)
  | fuel + 1, s, input, c =>
      finalizeStep (startRec s input) c.history.length
        (execDispatch env fuel s input
          { c with history := c.history ++ [startRec s input] })

/-- The `switch (this.type)` dispatch of `Step.execute`, applied to the
context that already holds the pushed start record (`c1` in the
wrapper). -/
def execDispatch (env : Env) : Nat → StepK → Val → Ctx → Except Val Val × Ctx
  | 0, _, _, c1 => (.error (.verr 0 "out of fuel"), c1)
  | fuel + 1, s, input, c1 =>
      match s.meta.type with
        | .agent =>
            match s.meta.agentId with
            | none => (.error (.verr 0 ("Agent ID required for agent step: " ++ s.idOf)), c1)
            | some aid =>
                match mapGet env.agents aid with
                | none => (.error (.verr 0 ("Agent not found: " ++ aid)), c1)
                | some agentFn => (agentFn (stepPrompt input) c1, c1)
        | .tool =>
            match s.meta.toolName with
            | none => (.error (.verr 0 ("Tool name required for tool step: " ++ s.idOf)), c1)
            | some tn =>
                match mapGet env.tools tn with
                | none => (.error (.verr 0 ("Tool not found: " ++ tn)), c1)
                | some handler => (handler input c1, c1)
        | .condition =>
            match s.meta.cond with
            | none => (.error (.verr 0 ("Condition function required for condition step: " ++ s.idOf)), c1)
            | some p =>
                let b := p c1
                if b then
                  match s.meta.onSuccess with
                  | some sid =>
                      match findStep s.substeps sid with
                      | some branch => execStep env fuel branch input c1
                      | none => (.ok (.vbool b), c1)
                  | none => (.ok (.vbool b), c1)
                else
                  match s.meta.onFailure with
                  | some fid =>
                      match findStep s.substeps fid with
                      | some branch => execStep env fuel branch input c1
                      | none => (.ok (.vbool b), c1)
                  | none => (.ok (.vbool b), c1)
        | .loop =>
            match s.substeps with
            | [] => (.error (.verr 0 ("Loop steps required for loop step: " ++ s.idOf)), c1)
            | ss => execLoopIters env fuel (s.meta.iterations.getD 1) ss input c1 []
        | .parallel =>
            match s.substeps with
            | [] => (.error (.verr 0 ("Parallel steps required for parallel step: " ++ s.idOf)), c1)
            | ss =>
                let (results, c2) := execParChildren env fuel ss input c1
                let failed := results.filter (fun r => isErr r.2)
                if failed.isEmpty then
                  (.ok (.vobj (results.filterMap (fun r =>
                    match r.2 with
                    | .ok v => if isVNull v then none else some (r.1, v)
                    | .error _ => none))), c2)
                else
                  (.error (.verr 0 (toString failed.length ++ " parallel steps failed: "
                    ++ String.intercalate ", " (failed.map (·.1)))), c2)

/-- The inner sequential run of a loop iteration: threads each nested
step's output into the next nested step. -/
def execSeqList (env : Env) : Nat → List StepK → Val → Ctx → Except Val Val × Ctx
  | _, [], input, c => (.ok input, c)
  | 0, _ :: _, _, c => (.error (.verr 0 "out of fuel"), c)
  | fuel + 1, s :: rest, input, c =>
      match execStep env fuel s input c with
      | (.ok v, c2) => execSeqList env fuel rest v c2
      | (.error e, c2) => (.error e, c2)

/-- `Step.executeLoop`'s iteration loop: each iteration threads the
previous iteration's final output and appends it to the results. -/
def execLoopIters (env : Env) : Nat → Nat → List StepK → Val → Ctx → List Val →
    Except Val Val × Ctx
  | _, 0, _, _, c, acc => (.ok (.varr acc), c)
  | 0, _ + 1, _, _, c, _ => (.error (.verr 0 "out of fuel"), c)
  | fuel + 1, n + 1, steps, input, c, acc =>
      match execSeqList env fuel steps input c with
      | (.ok v, c2) => execLoopIters env fuel n steps v c2 (acc ++ [v])
      | (.error e, c2) => (.error e, c2)

/-- `Step.executeParallel`'s fan-out: each nested step runs against the
*same* input (the cooperative single-threaded runtime serializes the
branches in order); each child's outcome is captured per child id. -/
def execParChildren (env : Env) : Nat → List StepK → Val → Ctx →
    List (String × Except Val Val) × Ctx
  | _, [], _, c => ([], c)
  | 0, steps, _, c =>
      (steps.map (fun s => (s.idOf, .error (.verr 0 "out of fuel"))), c)
  | fuel + 1, s :: rest, input, c =>
      let (r, c2) := execStep env fuel s input c
      let (rs, c3) := execParChildren env fuel rest input c2
      ((s.idOf, r) :: rs, c3)

end

/-- A `Workflow`: id, ordered steps and the `parallel` flag. -/
structure WorkflowK where
  id : String
  steps : List StepK
  parallel : Bool

/-- `Workflow.executeSequential`'s loop over the remaining steps:
each step runs with `context.stepId` set to its id, its result is
written into `context.variables[step.id]` and threaded to the next
step.  On a throw, if the step declares `onFailure` naming a step found
in the *whole* workflow step list (`all`), that step runs with the
error value as input and execution continues with its result (which is
*not* written into the variables); otherwise the error propagates. -/
def wfSeq (env : Env) (all : List StepK) (fuel : Nat) :
    List StepK → Val → Ctx → Except Val Val × Ctx
  | [], lastResult, c => (.ok lastResult, c)
  | s :: rest, lastResult, c =>
      match execStep env fuel s lastResult { c with stepId := s.idOf } with
      | (.ok v, c2) =>
          wfSeq env all fuel rest v { c2 with vars := mapSet c2.vars s.idOf v }
      | (.error e, c2) =>
          match s.meta.onFailure with
          | some fid =>
              match findStep all fid with
              | some fs =>
                  match execStep env fuel fs e { c2 with stepId := fs.idOf } with
                  | (.ok v, c4) => wfSeq env all fuel rest v c4
                  | (.error e2, c4) => (.error e2, c4)
              | none => (.error e, c2)
          | none => (.error e, c2)

/-- `Workflow.executeParallel`'s fan-out over the top-level steps: each
runs against the same `context.variables.input` on a shallow context
copy whose `stepId` is its own id (variables and history stay shared);
outcomes are captured per step id. -/
def wfParChildren (env : Env) (fuel : Nat) :
    List StepK → Val → Ctx → List (String × Except Val Val) × Ctx
  | [], _, c => ([], c)
  | s :: rest, input, c =>
      let (r, c2) := execStep env fuel s input { c with stepId := s.idOf }
      let (rs, c3) := wfParChildren env fuel rest input { c2 with stepId := c.stepId }
      ((s.idOf, r) :: rs, c3)

/-- `Workflow.executeParallel`: runs all top-level steps against
`context.variables.input`; if any failed, throws the aggregate error
*before* any result is written into the variables; otherwise writes
each non-`null` result into `context.variables[step.id]` and returns
the combined mapping. -/
def wfParallel (env : Env) (fuel : Nat) (steps : List StepK) (c : Ctx) :
    Except Val Val × Ctx :=
  let input := (mapGet c.vars "input").getD .undef
  let (results, c2) := wfParChildren env fuel steps input c
  let failed := results.filter (fun r => isErr r.2)
  if failed.isEmpty then
    let writes := results.filterMap (fun r =>
      match r.2 with
      | .ok v => if isVNull v then none else some (r.1, v)
      | .error _ => none)
    (.ok (.vobj writes),
     { c2 with vars := writes.foldl (fun m kv => mapSet m kv.1 kv.2) c2.vars })
  else
    (.error (.verr 0 (toString failed.length ++ " steps failed: "
      ++ String.intercalate ", " (failed.map (·.1)))), c2)

/-- `Workflow.execute`: sequential or parallel composition over the
workflow's steps; the sequential mode seeds the thread with
`context.variables.input`. -/
def WorkflowK.exec (env : Env) (fuel : Nat) (w : WorkflowK) (c : Ctx) :
    Except Val Val × Ctx :=
  if w.parallel then wfParallel env fuel w.steps c
  else wfSeq env w.steps fuel w.steps ((mapGet c.vars "input").getD .undef) c

/-- A fully successful sequential run over leaf (agent- or tool-type)
steps: each step executes on the previous step's output (the first on
the seed value) and succeeds with the listed output, and the loop
writes each output into the variables before moving on — exactly the
happy path of `Workflow.executeSequential`. -/
inductive SeqRun (env : Env) (fuel : Nat) :
    List StepK → Val → Ctx → List Val → Ctx → Prop where
  | nil : ∀ input c, SeqRun env fuel [] input c [] c
  | cons : ∀ s rest input c v c2 outs c3,
      (s.meta.type = .agent ∨ s.meta.type = .tool) →
      execStep env fuel s input { c with stepId := s.idOf } = (.ok v, c2) →
      SeqRun env fuel rest v { c2 with vars := mapSet c2.vars s.idOf v } outs c3 →
      SeqRun env fuel (s :: rest) input c (v :: outs) c3

/-- The finalized history records of a fully successful leaf-step
sequential run: one record per step, in declaration order, each holding
the input threaded from the previous output. -/
def leafRecords : List StepK → Val → List Val → List HRec
  | s :: rest, inp, v :: outs =>
      { stepId := s.idOf, agentId := s.meta.agentId, input := inp,
        output := some v, error := none } :: leafRecords rest v outs
  | _, _, _ => []

/-- The variable writes of a sequential run: `variables[step.id] :=
output`, in order. -/
def writeVars : List StepK → List Val → List (String × Val) → List (String × Val)
  | s :: rest, v :: outs, m => writeVars rest outs (mapSet m s.idOf v)
  | _, _, m => m

/-- Fixture: an environment with one echoing agent "a". -/
def seqEnv : Env :=
  { agents := [("a", fun p _ => .ok (.vstr ("re:" ++ p)))], tools := [] }

/-- Fixture: agent-type step "s1". -/
def seqS1 : StepK := .mk { id := "s1", type := .agent, agentId := some "a" } []

/-- Fixture: agent-type step "s2". -/
def seqS2 : StepK := .mk { id := "s2", type := .agent, agentId := some "a" } []

/-- Fixture: the two-step sequential workflow. -/
def seqW : WorkflowK := { id := "w", steps := [seqS1, seqS2], parallel := false }

/-- Fixture: starting context with `variables.input = "go"`. -/
def seqC0 : Ctx := { stepId := "", vars := [("input", .vstr "go")], history := [] }

/-- Fixture: the outputs of the two steps. -/
def seqOuts : List Val := [.vstr "re:go", .vstr "re:re:go"]

/-- Fixture: the final context of the two-step run. -/
def seqCF : Ctx :=
  { stepId := "s2",
    vars := [("input", .vstr "go"), ("s1", .vstr "re:go"),
             ("s2", .vstr "re:re:go")],
    history :=
      [{ stepId := "s1", agentId := some "a", input := .vstr "go",
         output := some (.vstr "re:go"), error := none },
       { stepId := "s2", agentId := some "a", input := .vstr "re:go",
         output := some (.vstr "re:re:go"), error := none }] }

/-- Fixture: a loop step running the nested agent step "s1" once. -/
def loopStep : StepK := .mk { id := "L", type := .loop, iterations := some 1 } [seqS1]

/-- Fixture: the one-step workflow whose single step is the loop. -/
def loopW : WorkflowK := { id := "wl", steps := [loopStep], parallel := false }

/-- Fixture: a throwing tool "boom" and a recovery tool "recov" that
wraps its input in an array. -/
def recEnv : Env :=
  { agents := [],
    tools := [("boom", fun _ _ => .error (.verr 7 "kaput")),
              ("recov", fun i _ => .ok (.varr [i]))] }

/-- Fixture: the failing tool step "b" with `onFailure = "recover"`. -/
def recSb : StepK :=
  .mk { id := "b", type := .tool, toolName := some "boom",
        onFailure := some "recover" } []

/-- Fixture: the recovery tool step "recover". -/
def recSr : StepK :=
  .mk { id := "recover", type := .tool, toolName := some "recov" } []

/-- Fixture: starting context for the recovery run. -/
def recC0 : Ctx := { stepId := "", vars := [("input", .vstr "go")], history := [] }

/-- Fixture: the context after the failing step "b". -/
def recC2 : Ctx :=
  { stepId := "b", vars := [("input", .vstr "go")],
    history := [{ stepId := "b", agentId := none, input := .vstr "go",
                  output := none, error := some (.verr 7 "kaput") }] }

/-- Fixture: the context after the recovery step ran on the error. -/
def recC3 : Ctx :=
  { stepId := "recover", vars := [("input", .vstr "go")],
    history := [{ stepId := "b", agentId := none, input := .vstr "go",
                  output := none, error := some (.verr 7 "kaput") },
                { stepId := "recover", agentId := none,
                  input := .verr 7 "kaput",
                  output := some (.varr [.verr 7 "kaput"]), error := none }] }

/-- Fixture: tools returning `null` and "x". -/
def nullEnv : Env :=
  { agents := [],
    tools := [("ta", fun _ _ => .ok .vnull),
              ("tb", fun _ _ => .ok (.vstr "x"))] }

/-- Fixture: child "A", a tool step whose handler returns `null`. -/
def nullPa : StepK := .mk { id := "A", type := .tool, toolName := some "ta" } []

/-- Fixture: child "B", a tool step whose handler returns "x". -/
def nullPb : StepK := .mk { id := "B", type := .tool, toolName := some "tb" } []

/-- Fixture: the parallel step over A and B. -/
def nullPp : StepK := .mk { id := "P", type := .parallel } [nullPa, nullPb]

/-- Fixture: an empty starting context. -/
def nullC0 : Ctx := { stepId := "", vars := [], history := [] }

/-- Fixture: the context holding the parallel step's start record. -/
def nullC1 : Ctx :=
  { nullC0 with history := nullC0.history ++ [startRec nullPp (.vstr "in")] }

/-- Fixture for the `step_parallel_aggregate` witness: one succeeding
and one throwing tool. -/
def parEnv : Env :=
  { agents := [],
    tools := [("tra", fun _ _ => .ok (.vstr "ra")),
              ("boom", fun _ _ => .error (.verr 7 "kaput"))] }

/-- Fixture: the succeeding child "A". -/
def parChildA : StepK := .mk { id := "A", type := .tool, toolName := some "tra" } []

/-- Fixture: the throwing child "C". -/
def parChildC : StepK := .mk { id := "C", type := .tool, toolName := some "boom" } []

/-- Fixture: the parallel step over A and C. -/
def parStep : StepK := .mk { id := "P", type := .parallel } [parChildA, parChildC]

/-- Fixture: an empty starting context. -/
def parCtx0 : Ctx := { stepId := "", vars := [], history := [] }

/-- Fixture: the context after the parallel step's start record push. -/
def parCtx1 : Ctx :=
  { parCtx0 with history := parCtx0.history ++ [startRec parStep (.vstr "in")] }

/-- Fixture for the `workflow_parallel_partial_failure` witness: a
succeeding tool and a throwing tool. -/
def wpEnv : Env :=
  { agents := [],
    tools := [("tb", fun _ _ => .ok (.vstr "x")),
              ("boom", fun _ _ => .error (.verr 7 "kaput"))] }

/-- Fixture: the parallel workflow over "A" (succeeds) and "B"
(throws). -/
def wpWorkflow : WorkflowK :=
  { id := "wp",
    steps := [.mk { id := "A", type := .tool, toolName := some "tb" } [],
              .mk { id := "B", type := .tool, toolName := some "boom" } []],
    parallel := true }

/-- Fixture: the starting context with `variables.input = "go"`. -/
def wpCtx0 : Ctx := { stepId := "", vars := [("input", .vstr "go")], history := [] }

/-- The attempt loop performs at most `remaining` further invocations. -/
theorem withRetryGo_calls_le (fn : Nat → Except Val Val) (opts : RetryOptions) :
    ∀ (r attempt : Nat) (lastE : Option Val) (calls : Nat)
      (retries : List (Nat × Val)) (delays : List Nat),
      (withRetryGo fn opts attempt r lastE calls retries delays).calls ≤ calls + r := by
  intro r
  induction r with
  | zero => intro attempt lastE calls retries delays; simp [withRetryGo]
  | succ r ih =>
      intro attempt lastE calls retries delays
      simp only [withRetryGo]
      cases fn attempt with
      | ok v => simp
      | error e =>
          by_cases hr : r = 0
          · simp [hr]
          · simp only [hr, if_false]
            calc (withRetryGo fn opts (attempt + 1) r (some e) (calls + 1) _ _).calls
                ≤ calls + 1 + r := ih (attempt + 1) _ _ _ _
              _ ≤ calls + (r + 1) := by omega

/-- One-step unfolding of the attempt loop, used to keep rewriting under
control in the inductions below. -/
theorem withRetryGo_succ (fn : Nat → Except Val Val) (opts : RetryOptions)
    (attempt r : Nat) (lastE : Option Val) (calls : Nat)
    (retries : List (Nat × Val)) (delays : List Nat) :
    withRetryGo fn opts attempt (r + 1) lastE calls retries delays =
      match fn attempt with
      | .ok v =>
          { result := .ok v, calls := calls + 1, retries := retries,
            delays := delays }
      | .error e =>
          if r = 0 then
            { result := .error e, calls := calls + 1, retries := retries,
              delays := delays }
          else
            withRetryGo fn opts (attempt + 1) r (some e) (calls + 1)
              (retries ++ [(attempt, e)])
              (delays ++
                [min (opts.backoffMs * (jsOr opts.backoffMultiplier 2) ^ (attempt - 1))
                  (jsOr opts.maxBackoffMs 30000)]) := rfl

/-- When every attempt in the window fails, the loop exhausts the
budget: the final error is re-raised, one `onRetry` call and one delay
(with the exponential-backoff formula) occur per attempt except the
last. -/
theorem withRetryGo_allFail (fn : Nat → Except Val Val) (opts : RetryOptions)
    (err : Nat → Val) :
    ∀ (r attempt : Nat) (lastE : Option Val) (calls : Nat)
      (retries : List (Nat × Val)) (delays : List Nat),
      (∀ i, attempt ≤ i → i ≤ attempt + r → fn i = Except.error (err i)) →
      withRetryGo fn opts attempt (r + 1) lastE calls retries delays =
        { result := .error (err (attempt + r)),
          calls := calls + (r + 1),
          retries := retries ++
            (List.range r).map (fun i => (attempt + i, err (attempt + i))),
          delays := delays ++
            (List.range r).map (fun i =>
              min (opts.backoffMs * (jsOr opts.backoffMultiplier 2) ^ (attempt + i - 1))
                (jsOr opts.maxBackoffMs 30000)) } := by
  intro r
  induction r with
  | zero =>
      intro attempt lastE calls retries delays h
      have hfa : fn attempt = .error (err attempt) := h attempt le_rfl (by omega)
      simp [withRetryGo, hfa]
  | succ r ih =>
      intro attempt lastE calls retries delays h
      have hfa : fn attempt = .error (err attempt) := h attempt le_rfl (by omega)
      have ihe := ih (attempt + 1) (some (err attempt)) (calls + 1)
        (retries ++ [(attempt, err attempt)])
        (delays ++ [min (opts.backoffMs * (jsOr opts.backoffMultiplier 2) ^ (attempt - 1))
          (jsOr opts.maxBackoffMs 30000)])
        (fun i h1 h2 => h i (by omega) (by omega))
      rw [withRetryGo_succ]
      simp only [hfa, Nat.succ_ne_zero, if_false, ihe]
      have hres : attempt + 1 + r = attempt + (r + 1) := by omega
      have hcalls : calls + 1 + (r + 1) = calls + (r + 1 + 1) := by omega
      have hretr :
          retries ++ [(attempt, err attempt)] ++
              (List.range r).map (fun i => (attempt + 1 + i, err (attempt + 1 + i))) =
            retries ++
              (List.range (r + 1)).map (fun i => (attempt + i, err (attempt + i))) := by
        rw [List.range_succ_eq_map]
        simp only [List.map_cons, List.map_map, List.append_assoc, List.cons_append,
          List.nil_append, Nat.add_zero]
        congr 2
        apply List.map_congr_left
        intro i _
        have h2 : attempt + 1 + i = attempt + (i + 1) := by omega
        simp only [Function.comp, Nat.succ_eq_add_one, h2]
      have hdel :
          delays ++ [min (opts.backoffMs * (jsOr opts.backoffMultiplier 2) ^ (attempt - 1))
              (jsOr opts.maxBackoffMs 30000)] ++
              (List.range r).map (fun i =>
                min (opts.backoffMs * (jsOr opts.backoffMultiplier 2) ^ (attempt + 1 + i - 1))
                  (jsOr opts.maxBackoffMs 30000)) =
            delays ++
              (List.range (r + 1)).map (fun i =>
                min (opts.backoffMs * (jsOr opts.backoffMultiplier 2) ^ (attempt + i - 1))
                  (jsOr opts.maxBackoffMs 30000)) := by
        rw [List.range_succ_eq_map]
        simp only [List.map_cons, List.map_map, List.append_assoc, List.cons_append,
          List.nil_append, Nat.add_zero]
        congr 2
        apply List.map_congr_left
        intro i _
        have h3 : attempt + 1 + i - 1 = attempt + (i + 1) - 1 := by omega
        simp only [Function.comp, Nat.succ_eq_add_one, h3]
      rw [hres, hcalls, hretr, hdel]

/-- C3: `withRetry(operation, options)` invokes the operation at most
`options.maxAttempts` times; after every failed attempt except the last
it calls `onRetry(attempt, error)` and then delays
`min(backoffMs * backoffMultiplier^(attempt-1), maxBackoffMs)` with
defaults `backoffMultiplier = 2` and `maxBackoffMs = 30000` (the `jsOr`
defaults); after `maxAttempts` failures it re-raises exactly the error
value of the final attempt.  In particular, with `maxAttempts = 3` on an
operation that fails twice then succeeds, exactly 3 invocations and
exactly 2 `onRetry` calls occur and no error propagates. -/
theorem withRetry_spec (fn : Nat → Except Val Val) (opts : RetryOptions) :
    (withRetry fn opts).calls ≤ opts.maxAttempts.toNat
    ∧ (∀ err : Nat → Val, 1 ≤ opts.maxAttempts →
        (∀ i, 1 ≤ i → i ≤ opts.maxAttempts.toNat → fn i = Except.error (err i)) →
        (withRetry fn opts).result = .error (err opts.maxAttempts.toNat)
        ∧ (withRetry fn opts).calls = opts.maxAttempts.toNat
        ∧ (withRetry fn opts).retries =
            (List.range (opts.maxAttempts.toNat - 1)).map (fun i => (i + 1, err (i + 1)))
        ∧ (withRetry fn opts).delays =
            (List.range (opts.maxAttempts.toNat - 1)).map (fun i =>
              min (opts.backoffMs * (jsOr opts.backoffMultiplier 2) ^ i)
                (jsOr opts.maxBackoffMs 30000)))
    ∧ (∀ e1 e2 v, opts.maxAttempts = 3 →
        fn 1 = .error e1 → fn 2 = .error e2 → fn 3 = .ok v →
        (withRetry fn opts).result = .ok v
        ∧ (withRetry fn opts).calls = 3
        ∧ (withRetry fn opts).retries = [(1, e1), (2, e2)]
        ∧ (withRetry fn opts).delays =
            [min opts.backoffMs (jsOr opts.maxBackoffMs 30000),
             min (opts.backoffMs * jsOr opts.backoffMultiplier 2)
               (jsOr opts.maxBackoffMs 30000)]) := by
  refine ⟨?_, ?_, ?_⟩
  · exact le_trans (withRetryGo_calls_le fn opts _ 1 none 0 [] []) (by omega)
  · intro err hpos h
    have hN : opts.maxAttempts.toNat = (opts.maxAttempts.toNat - 1) + 1 := by omega
    have key := withRetryGo_allFail fn opts err (opts.maxAttempts.toNat - 1) 1 none 0 [] []
      (fun i h1 h2 => h i h1 (by omega))
    rw [withRetry, hN, key]
    refine ⟨by rw [Nat.add_comm], by simp, ?_, ?_⟩
    · simp only [List.nil_append]
      apply List.map_congr_left
      intro i _
      rw [Nat.add_comm 1 i]
    · simp only [List.nil_append]
      apply List.map_congr_left
      intro i _
      rw [show 1 + i - 1 = i from by omega]
  · intro e1 e2 v hMA h1 h2 h3
    have hN : opts.maxAttempts.toNat = 3 := by rw [hMA]; rfl
    rw [withRetry, hN]
    rw [show (3 : Nat) = 2 + 1 from rfl, withRetryGo_succ]
    simp only [h1]
    rw [show (2 : Nat) = 1 + 1 from rfl, withRetryGo_succ]
    simp only [h2]
    rw [withRetryGo_succ]
    simp only [h3]
    norm_num

/-- Witness for `withRetry_spec` at a concrete operation that fails
twice then succeeds, with `maxAttempts = 3`. -/
theorem withRetry_spec_witness :
    (withRetry (fun i => if i ≤ 2 then .error (.verr i "boom") else .ok (.vstr "done"))
        { maxAttempts := 3, backoffMs := 100 }).result = .ok (.vstr "done")
    ∧ (withRetry (fun i => if i ≤ 2 then .error (.verr i "boom") else .ok (.vstr "done"))
        { maxAttempts := 3, backoffMs := 100 }).calls = 3
    ∧ (withRetry (fun i => if i ≤ 2 then .error (.verr i "boom") else .ok (.vstr "done"))
        { maxAttempts := 3, backoffMs := 100 }).retries =
        [(1, .verr 1 "boom"), (2, .verr 2 "boom")]
    ∧ (withRetry (fun i => if i ≤ 2 then .error (.verr i "boom") else .ok (.vstr "done"))
        { maxAttempts := 3, backoffMs := 100 }).delays = [100, 200] := by
  have h := (withRetry_spec
    (fun i => if i ≤ 2 then .error (.verr i "boom") else .ok (.vstr "done"))
    { maxAttempts := 3, backoffMs := 100 }).2.2
    (.verr 1 "boom") (.verr 2 "boom") (.vstr "done") rfl (by norm_num) (by norm_num)
    (by norm_num)
  obtain ⟨ha, hb, hc, hd⟩ := h
  exact ⟨ha, hb, hc, by rw [hd]; rfl⟩

/-- C10: calling `withRetry` with `maxAttempts ≤ 0` never invokes the
operation and rejects by throwing JS `undefined` — the uninitialized
`lastError` variable — which is not an `Error` object. -/
theorem withRetry_nonpositive_budget (fn : Nat → Except Val Val)
    (opts : RetryOptions) (h : opts.maxAttempts ≤ 0) :
    withRetry fn opts =
      { result := .error .undef, calls := 0, retries := [], delays := [] }
    ∧ ∀ uid msg, (Val.undef : Val) ≠ .verr uid msg := by
  have hz : opts.maxAttempts.toNat = 0 := Int.toNat_of_nonpos h
  refine ⟨?_, fun uid msg heq => Val.noConfusion heq⟩
  rw [withRetry, hz]
  rfl

/-- Witness for `withRetry_nonpositive_budget` at `maxAttempts = 0`. -/
theorem withRetry_nonpositive_budget_witness :
    withRetry (fun _ => .ok (.vstr "never")) { maxAttempts := 0, backoffMs := 5 } =
      { result := .error .undef, calls := 0, retries := [], delays := [] }
    ∧ ∀ uid msg, (Val.undef : Val) ≠ .verr uid msg :=
  withRetry_nonpositive_budget _ _ (by norm_num)

/-- C6: when a plugin hook invoked by `executeHook` throws, the error is
swallowed and the chain continues with the remaining hooks exactly as if
the throwing hook were absent — unless the hook name begins with
"onError", in which case the error is re-raised and the pipeline
aborts. -/
theorem executeHook_throwing_hook (hookName : String) (h : HookEntry)
    (rest : List HookEntry) (r e : Val) (f : Val → Except Val Val)
    (henabled : h.enabled = true) (hfn : h.fn = some f)
    (hthrows : f r = .error e) :
    (hookName.startsWith "onError" = false →
      executeHook hookName (h :: rest) r = executeHook hookName rest r)
    ∧ (hookName.startsWith "onError" = true →
      executeHook hookName (h :: rest) r = .error e) := by
  constructor <;> intro hpre <;>
    simp [executeHook, executeHookGo, henabled, hfn, hthrows, hpre]

/-- Witness for `executeHook_throwing_hook`: a concrete throwing hook
under a non-"onError" hook name is skipped, and the same hook under
"onError" re-raises. -/
theorem executeHook_throwing_hook_witness :
    (("beforeStep" : String).startsWith "onError" = false →
      executeHook "beforeStep"
        [⟨"p", true, some (fun _ => .error (.verr 1 "hook boom"))⟩] (.vstr "x") =
      executeHook "beforeStep" [] (.vstr "x"))
    ∧ (("beforeStep" : String).startsWith "onError" = true →
      executeHook "beforeStep"
        [⟨"p", true, some (fun _ => .error (.verr 1 "hook boom"))⟩] (.vstr "x") =
      .error (.verr 1 "hook boom")) :=
  executeHook_throwing_hook "beforeStep"
    ⟨"p", true, some (fun _ => .error (.verr 1 "hook boom"))⟩ [] (.vstr "x")
    (.verr 1 "hook boom") _ rfl rfl rfl

/-- C7: with `burstLimit = 3` (other limits at their defaults), four
`beforeAgentExecution` calls for the same key within one 60-second
window make the fourth fail with a rate-limit error, and a call for the
same key in the next 60-second window (within the same hourly window)
succeeds. -/
theorem rateLimiter_burst_window (key : String) (n1 n2 n3 n4 n5 : Nat)
    (h12 : n1 ≤ n2) (h23 : n2 ≤ n3) (h34 : n3 ≤ n4) (h4w : n4 < n1 + 60000)
    (h5lo : n1 + 60000 ≤ n5) (h5hi : n5 < n1 + 3600000) :
    let st0 : RateLimiterState := { limits := [], burstLimit := 3 }
    let c1 := rlBeforeAgentExecution st0 n1 key
    let c2 := rlBeforeAgentExecution c1.2 n2 key
    let c3 := rlBeforeAgentExecution c2.2 n3 key
    let c4 := rlBeforeAgentExecution c3.2 n4 key
    let c5 := rlBeforeAgentExecution c4.2 n5 key
    c1.1 = .ok () ∧ c2.1 = .ok () ∧ c3.1 = .ok ()
    ∧ c4.1 = .error (.verr 0 ("Rate limit exceeded for " ++ key))
    ∧ c5.1 = .ok () := by
  intro st0 c1 c2 c3 c4 c5
  have a1 : n1 < n1 + 60000 := by omega
  have a2 : n1 < n1 + 3600000 := by omega
  have b1 : n2 < n1 + 60000 := by omega
  have b2 : n2 < n1 + 3600000 := by omega
  have d1 : n3 < n1 + 60000 := by omega
  have d2 : n3 < n1 + 3600000 := by omega
  have f1 : ¬ n5 < n1 + 60000 := by omega
  have e1 : rlBeforeAgentExecution st0 n1 key =
      (.ok (), { limits := [(key, ⟨1, n1 + 3600000, 1, n1 + 60000⟩)],
                 burstLimit := 3 }) := by
    simp [st0, rlBeforeAgentExecution, checkRateLimit, commitEntry, recordRequest,
      mapGet, mapSet, createEntry, a1, a2]
  have e2 : rlBeforeAgentExecution
      ({ limits := [(key, ⟨1, n1 + 3600000, 1, n1 + 60000⟩)],
         burstLimit := 3 } : RateLimiterState) n2 key =
      (.ok (), { limits := [(key, ⟨2, n1 + 3600000, 2, n1 + 60000⟩)],
                 burstLimit := 3 }) := by
    simp [rlBeforeAgentExecution, checkRateLimit, commitEntry, recordRequest,
      mapGet, mapSet, createEntry, b1, b2]
  have e3 : rlBeforeAgentExecution
      ({ limits := [(key, ⟨2, n1 + 3600000, 2, n1 + 60000⟩)],
         burstLimit := 3 } : RateLimiterState) n3 key =
      (.ok (), { limits := [(key, ⟨3, n1 + 3600000, 3, n1 + 60000⟩)],
                 burstLimit := 3 }) := by
    simp [rlBeforeAgentExecution, checkRateLimit, commitEntry, recordRequest,
      mapGet, mapSet, createEntry, d1, d2]
  have e4 : rlBeforeAgentExecution
      ({ limits := [(key, ⟨3, n1 + 3600000, 3, n1 + 60000⟩)],
         burstLimit := 3 } : RateLimiterState) n4 key =
      (.error (.verr 0 ("Rate limit exceeded for " ++ key)),
       { limits := [(key, ⟨3, n1 + 3600000, 3, n1 + 60000⟩)],
         burstLimit := 3 }) := by
    simp [rlBeforeAgentExecution, checkRateLimit, commitEntry, recordRequest,
      mapGet, mapSet, createEntry, h4w]
  have e5 : (rlBeforeAgentExecution
      ({ limits := [(key, ⟨3, n1 + 3600000, 3, n1 + 60000⟩)],
         burstLimit := 3 } : RateLimiterState) n5 key).1 = .ok () := by
    simp [rlBeforeAgentExecution, checkRateLimit, commitEntry, recordRequest,
      mapGet, mapSet, createEntry, f1, h5hi]
  refine ⟨?_, ?_, ?_, ?_, ?_⟩
  · rw [show c1 = rlBeforeAgentExecution st0 n1 key from rfl, e1]
  · rw [show c2 = rlBeforeAgentExecution c1.2 n2 key from rfl,
      show c1 = rlBeforeAgentExecution st0 n1 key from rfl, e1, e2]
  · rw [show c3 = rlBeforeAgentExecution c2.2 n3 key from rfl,
      show c2 = rlBeforeAgentExecution c1.2 n2 key from rfl,
      show c1 = rlBeforeAgentExecution st0 n1 key from rfl, e1, e2, e3]
  · rw [show c4 = rlBeforeAgentExecution c3.2 n4 key from rfl,
      show c3 = rlBeforeAgentExecution c2.2 n3 key from rfl,
      show c2 = rlBeforeAgentExecution c1.2 n2 key from rfl,
      show c1 = rlBeforeAgentExecution st0 n1 key from rfl, e1, e2, e3, e4]
  · rw [show c5 = rlBeforeAgentExecution c4.2 n5 key from rfl,
      show c4 = rlBeforeAgentExecution c3.2 n4 key from rfl,
      show c3 = rlBeforeAgentExecution c2.2 n3 key from rfl,
      show c2 = rlBeforeAgentExecution c1.2 n2 key from rfl,
      show c1 = rlBeforeAgentExecution st0 n1 key from rfl, e1, e2, e3, e4, e5]

/-- Witness for `rateLimiter_burst_window` at concrete times
0, 10, 20, 30 and 60000 ms for key "agent1:anonymous". -/
theorem rateLimiter_burst_window_witness :
    rlCall1.1 = .ok () ∧ rlCall2.1 = .ok () ∧ rlCall3.1 = .ok ()
    ∧ rlCall4.1 = .error (.verr 0 ("Rate limit exceeded for agent1:anonymous"))
    ∧ rlCall5.1 = .ok () :=
  rateLimiter_burst_window "agent1:anonymous" 0 10 20 30 60000
    (by norm_num) (by norm_num) (by norm_num) (by norm_num) (by norm_num)
    (by norm_num)

/-- Reading back the key just written by `mapSet`. -/
theorem mapGet_mapSet_self {α : Type} (m : List (String × α)) (k : String)
    (v : α) : mapGet (mapSet m k v) k = some v := by
  induction m with
  | nil => simp [mapGet, mapSet]
  | cons p rest ih =>
      obtain ⟨k', v'⟩ := p
      by_cases h : k' = k
      · simp [mapGet, mapSet, h]
      · simp [mapGet, mapSet, h, ih]

/-- `mapSet` leaves other keys of a JS `Map` untouched. -/
theorem mapGet_mapSet_ne {α : Type} (m : List (String × α)) (k k' : String)
    (v : α) (h : k' ≠ k) : mapGet (mapSet m k v) k' = mapGet m k' := by
  induction m with
  | nil =>
      have h2 : ¬ k = k' := fun he => h he.symm
      simp [mapGet, mapSet, h2]
  | cons p rest ih =>
      obtain ⟨k'', v''⟩ := p
      by_cases h2 : k'' = k
      · subst h2
        have h3 : ¬ k'' = k' := fun he => h he.symm
        simp [mapGet, mapSet, h3]
      · simp [mapGet, mapSet, h2, ih]

/-- C8 counterexample: with the Cache plugin active and a plain *string*
input, two executions with identical agent id and input within the TTL
do **not** produce a cache hit flag on the second execution: the
before-hook looks up a key derived from the raw prompt ("hi") while the
after-hook stored under a key derived from `JSON.stringify(input)`
(the quoted string), so the lookup misses even though the first result
sits in the cache. -/
theorem cache_string_input_no_hit :
    cacheStrA1.2.entries.length = 1 ∧ cacheStrA1.2.ttlMs = 300000
    ∧ (mapGet cacheStrB2.1 "_cached").isNone = true := by
  refine ⟨rfl, rfl, ?_⟩
  decide

/-- C8 as amended: when each execution's prompt equals the JSON
serialization of its input — as holds for every non-string input routed
through `Step.executeAgent`, whose prompt is `JSON.stringify(input)` —
two executions with identical agent id and input within the TTL set the
`_cached` flag (and `_cachedResult`) on the second execution, the
cached result is returned without refreshing the entry, and a third
identical execution after the TTL has elapsed misses the cache. -/
theorem cache_hit_and_ttl_expiry (agentId : String) (input result : Val)
    (ttl maxSize t1 t2 t3 : Nat)
    (vars1 vars3 : List (String × Val))
    (hres : result.truthy = true)
    (hv1i : mapGet vars1 "input" = some input)
    (hv1c : mapGet vars1 "_cached" = none)
    (hv3c : mapGet vars3 "_cached" = none)
    (h21 : t2 - t1 ≤ ttl) (h31 : ttl < t3 - t1) :
    ∀ vars2 : List (String × Val),
    let st0 : CacheState := { entries := [], maxSize := maxSize, ttlMs := ttl }
    let prompt := jsonStringify input
    let e1b := cacheBeforeAgentExecution st0 t1 agentId prompt vars1
    let e1a := cacheAfterAgentExecution e1b.2 t1 agentId result e1b.1
    let e2b := cacheBeforeAgentExecution e1a.2 t2 agentId prompt vars2
    let e2a := cacheAfterAgentExecution e2b.2 t2 agentId result e2b.1
    let e3b := cacheBeforeAgentExecution e2a.2 t3 agentId prompt vars3
    e1b.1 = vars1
    ∧ mapGet e2b.1 "_cached" = some (.vbool true)
    ∧ mapGet e2b.1 "_cachedResult" = some result
    ∧ e2a.1 = result ∧ e2a.2 = e2b.2
    ∧ e3b.1 = vars3 ∧ mapGet e3b.1 "_cached" = none := by
  intro vars2 st0 prompt e1b e1a e2b e2a e3b
  have hne : ("_cached" : String) ≠ "_cachedResult" := by decide
  have he1b : e1b = (vars1, st0) := by
    simp [e1b, cacheBeforeAgentExecution, cacheGet, st0, mapGet]
  have he1a : e1a =
      (result, { st0 with entries :=
        [(defaultKeyGenerator agentId prompt, ⟨result, t1⟩)] }) := by
    rw [show e1a = cacheAfterAgentExecution e1b.2 t1 agentId result e1b.1 from rfl,
      he1b]
    simp [cacheAfterAgentExecution, hv1c, hv1i, cacheSet, st0, prompt, mapGet,
      mapSet, Val.truthy, List.filter]
  have he2b : e2b =
      (mapSet (mapSet vars2 "_cached" (.vbool true)) "_cachedResult" result,
       { st0 with entries :=
        [(defaultKeyGenerator agentId prompt, ⟨result, t1⟩)] }) := by
    rw [show e2b = cacheBeforeAgentExecution e1a.2 t2 agentId prompt vars2
      from rfl, he1a]
    simp [cacheBeforeAgentExecution, cacheGet, mapGet, hres,
      Nat.not_lt.mpr h21]
  have hc : mapGet e2b.1 "_cached" = some (.vbool true) := by
    rw [he2b]
    rw [show (mapSet (mapSet vars2 "_cached" (.vbool true)) "_cachedResult"
        result, ({ st0 with entries :=
        [(defaultKeyGenerator agentId prompt, ⟨result, t1⟩)] } : CacheState)).1 =
      mapSet (mapSet vars2 "_cached" (.vbool true)) "_cachedResult" result
      from rfl]
    rw [mapGet_mapSet_ne _ _ _ _ hne, mapGet_mapSet_self]
  have hcr : mapGet e2b.1 "_cachedResult" = some result := by
    rw [he2b]
    exact mapGet_mapSet_self _ _ _
  have he2a : e2a = (result, e2b.2) := by
    rw [show e2a = cacheAfterAgentExecution e2b.2 t2 agentId result e2b.1
      from rfl]
    simp [cacheAfterAgentExecution, hc, hcr, Val.truthy]
  have he3b : e3b = (vars3, { st0 with entries := [] }) := by
    rw [show e3b = cacheBeforeAgentExecution e2a.2 t3 agentId prompt vars3
      from rfl, he2a, he2b]
    simp [cacheBeforeAgentExecution, cacheGet, mapGet, mapDelete, h31]
  refine ⟨by rw [he1b], hc, hcr, by rw [he2a], by rw [he2a], by rw [he3b],
    by rw [he3b]; exact hv3c⟩

/-- Witness for `cache_hit_and_ttl_expiry`: a concrete object input,
TTL 300000 ms, executions at 0, 1000 and 300001 ms. -/
theorem cache_hit_and_ttl_expiry_witness :
    cacheObjB1.1 = [("input", .vobj [("m", .vstr "hi")])]
    ∧ mapGet cacheObjB2.1 "_cached" = some (.vbool true)
    ∧ mapGet cacheObjB2.1 "_cachedResult" = some (.vstr "resp")
    ∧ cacheObjA2.1 = .vstr "resp" ∧ cacheObjA2.2 = cacheObjB2.2
    ∧ cacheObjB3.1 = [("input", .vobj [("m", .vstr "hi")])]
    ∧ mapGet cacheObjB3.1 "_cached" = none :=
  cache_hit_and_ttl_expiry "a" (.vobj [("m", .vstr "hi")]) (.vstr "resp")
    300000 1000 0 1000 300001
    [("input", .vobj [("m", .vstr "hi")])]
    [("input", .vobj [("m", .vstr "hi")])]
    rfl rfl rfl rfl (by norm_num) (by norm_num)
    [("input", .vobj [("m", .vstr "hi")])]

/-- C9: after recording timer values 10, 20, 30, 40 under "x" on a
fresh collector, `getSummary("x")` reports `count = 4`, `min = 10`,
`max = 40`, `avg = 25`, and the rank-based percentiles
`p50 = 20`, `p95 = 40`, `p99 = 40` (`ceil(n*p) - 1`, clamped at 0). -/
theorem metrics_timer_summary :
    getSummary
      (recordTimer (recordTimer (recordTimer (recordTimer [] "x" 10) "x" 20)
        "x" 30) "x" 40) "x" =
      some { name := "x", count := 4, sum := 100, min := 10, max := 40,
             avg := 25, p50 := 20, p95 := 40, p99 := 40 } := by
  decide

/-- `(l ++ [a]).set l.length b = l ++ [b]`: finalizing the history
record pushed at the start of `Step.execute`. -/
theorem set_append_singleton {α : Type} (l : List α) (a b : α) :
    (l ++ [a]).set l.length b = l ++ [b] := by
  induction l with
  | nil => rfl
  | cons x rest ih => simp [List.set, ih]

/-- `finalizeStep` only rewrites a history slot: result, variables and
current step id pass through. -/
theorem finalizeStep_parts (rec : HRec) (idx : Nat) (p : Except Val Val × Ctx) :
    (finalizeStep rec idx p).1 = p.1
    ∧ (finalizeStep rec idx p).2.vars = p.2.vars
    ∧ (finalizeStep rec idx p).2.stepId = p.2.stepId := by
  obtain ⟨r, c⟩ := p
  cases r <;> exact ⟨rfl, rfl, rfl⟩

/-- `Step.execute` (and its dispatch, loop and parallel helpers) never
writes `context.variables` or `context.stepId` — only the containing
Workflow does.  Stated for all mutually recursive runners at every
fuel. -/
theorem exec_preserves_vars (env : Env) : ∀ fuel : Nat,
    (∀ s input c, (execStep env fuel s input c).2.vars = c.vars
      ∧ (execStep env fuel s input c).2.stepId = c.stepId)
    ∧ (∀ s input c, (execDispatch env fuel s input c).2.vars = c.vars
      ∧ (execDispatch env fuel s input c).2.stepId = c.stepId)
    ∧ (∀ steps input c, (execSeqList env fuel steps input c).2.vars = c.vars
      ∧ (execSeqList env fuel steps input c).2.stepId = c.stepId)
    ∧ (∀ n steps input c acc, (execLoopIters env fuel n steps input c acc).2.vars = c.vars
      ∧ (execLoopIters env fuel n steps input c acc).2.stepId = c.stepId)
    ∧ (∀ steps input c, (execParChildren env fuel steps input c).2.vars = c.vars
      ∧ (execParChildren env fuel steps input c).2.stepId = c.stepId) := by
  intro fuel
  induction fuel with
  | zero =>
      refine ⟨fun s input c => ⟨rfl, rfl⟩, fun s input c => ⟨rfl, rfl⟩, ?_, ?_, ?_⟩
      · intro steps input c; cases steps <;> exact ⟨rfl, rfl⟩
      · intro n steps input c acc; cases n <;> exact ⟨rfl, rfl⟩
      · intro steps input c; cases steps <;> exact ⟨rfl, rfl⟩
  | succ fuel ih =>
      obtain ⟨ihS, ihD, ihL, ihI, ihP⟩ := ih
      have hstep : ∀ s input c, (execStep env (fuel + 1) s input c).2.vars = c.vars
          ∧ (execStep env (fuel + 1) s input c).2.stepId = c.stepId := by
        intro s input c
        obtain ⟨-, hv, hs⟩ := finalizeStep_parts (startRec s input) c.history.length
          (execDispatch env fuel s input
            { c with history := c.history ++ [startRec s input] })
        obtain ⟨hv2, hs2⟩ := ihD s input
          { c with history := c.history ++ [startRec s input] }
        exact ⟨(hv.trans hv2 : _), (hs.trans hs2 : _)⟩
      have hdisp : ∀ s input c, (execDispatch env (fuel + 1) s input c).2.vars = c.vars
          ∧ (execDispatch env (fuel + 1) s input c).2.stepId = c.stepId := by
        intro s input c
        cases hty : s.meta.type with
        | agent =>
            simp only [execDispatch, hty]
            cases s.meta.agentId with
            | none => exact ⟨rfl, rfl⟩
            | some aid =>
                dsimp only
                cases mapGet env.agents aid with
                | none => exact ⟨rfl, rfl⟩
                | some fn => exact ⟨rfl, rfl⟩
        | tool =>
            simp only [execDispatch, hty]
            cases s.meta.toolName with
            | none => exact ⟨rfl, rfl⟩
            | some tn =>
                dsimp only
                cases mapGet env.tools tn with
                | none => exact ⟨rfl, rfl⟩
                | some h => exact ⟨rfl, rfl⟩
        | condition =>
            simp only [execDispatch, hty]
            cases s.meta.cond with
            | none => exact ⟨rfl, rfl⟩
            | some p =>
                dsimp only
                cases hb : p c with
                | true =>
                    rw [if_pos rfl]
                    cases s.meta.onSuccess with
                    | none => exact ⟨rfl, rfl⟩
                    | some sid =>
                        dsimp only
                        cases findStep s.substeps sid with
                        | none => exact ⟨rfl, rfl⟩
                        | some branch => exact ihS branch input c
                | false =>
                    rw [if_neg Bool.false_ne_true]
                    cases s.meta.onFailure with
                    | none => exact ⟨rfl, rfl⟩
                    | some fid =>
                        dsimp only
                        cases findStep s.substeps fid with
                        | none => exact ⟨rfl, rfl⟩
                        | some branch => exact ihS branch input c
        | loop =>
            simp only [execDispatch, hty]
            cases s.substeps with
            | nil => exact ⟨rfl, rfl⟩
            | cons s0 rest => exact ihI (s.meta.iterations.getD 1) (s0 :: rest) input c []
        | parallel =>
            simp only [execDispatch, hty]
            cases hss : s.substeps with
            | nil => exact ⟨rfl, rfl⟩
            | cons s0 rest =>
                dsimp only
                obtain ⟨hv, hs⟩ := ihP (s0 :: rest) input c
                cases hpc : execParChildren env fuel (s0 :: rest) input c with
                | mk results c2 =>
                    rw [hpc] at hv hs
                    dsimp only at hv hs ⊢
                    by_cases hfe : (results.filter (fun r => isErr r.2)).isEmpty = true
                    · rw [if_pos hfe]
                      exact ⟨hv, hs⟩
                    · rw [if_neg hfe]
                      exact ⟨hv, hs⟩
      have hseq : ∀ steps input c, (execSeqList env (fuel + 1) steps input c).2.vars = c.vars
          ∧ (execSeqList env (fuel + 1) steps input c).2.stepId = c.stepId := by
        intro steps input c
        cases steps with
        | nil => exact ⟨rfl, rfl⟩
        | cons s rest =>
            simp only [execSeqList]
            obtain ⟨hv, hs⟩ := ihS s input c
            cases hes : execStep env fuel s input c with
            | mk r c2 =>
                rw [hes] at hv hs
                cases r with
                | ok v =>
                    obtain ⟨hv2, hs2⟩ := ihL rest v c2
                    exact ⟨hv2.trans hv, hs2.trans hs⟩
                | error e => exact ⟨hv, hs⟩
      have hiter : ∀ n steps input c acc,
          (execLoopIters env (fuel + 1) n steps input c acc).2.vars = c.vars
          ∧ (execLoopIters env (fuel + 1) n steps input c acc).2.stepId = c.stepId := by
        intro n steps input c acc
        cases n with
        | zero => exact ⟨rfl, rfl⟩
        | succ n =>
            simp only [execLoopIters]
            obtain ⟨hv, hs⟩ := ihL steps input c
            cases hes : execSeqList env fuel steps input c with
            | mk r c2 =>
                rw [hes] at hv hs
                cases r with
                | ok v =>
                    obtain ⟨hv2, hs2⟩ := ihI n steps v c2 (acc ++ [v])
                    exact ⟨hv2.trans hv, hs2.trans hs⟩
                | error e => exact ⟨hv, hs⟩
      have hpar : ∀ steps input c,
          (execParChildren env (fuel + 1) steps input c).2.vars = c.vars
          ∧ (execParChildren env (fuel + 1) steps input c).2.stepId = c.stepId := by
        intro steps input c
        cases steps with
        | nil => exact ⟨rfl, rfl⟩
        | cons s rest =>
            simp only [execParChildren]
            obtain ⟨hv, hs⟩ := ihS s input c
            cases hes : execStep env fuel s input c with
            | mk r c2 =>
                rw [hes] at hv hs
                obtain ⟨hv2, hs2⟩ := ihP rest input c2
                cases hps : execParChildren env fuel rest input c2 with
                | mk rs c3 =>
                    rw [hps] at hv2 hs2
                    exact ⟨hv2.trans hv, hs2.trans hs⟩
      exact ⟨hstep, hdisp, hseq, hiter, hpar⟩

/-- The parallel workflow fan-out never writes `context.variables`:
only the combine phase after the error check does. -/
theorem wfParChildren_preserves_vars (env : Env) (fuel : Nat) :
    ∀ (steps : List StepK) (input : Val) (c : Ctx),
      (wfParChildren env fuel steps input c).2.vars = c.vars := by
  intro steps
  induction steps with
  | nil => intro input c; rfl
  | cons s rest ih =>
      intro input c
      simp only [wfParChildren]
      cases hes : execStep env fuel s input { c with stepId := s.idOf } with
      | mk r c2 =>
          cases hps : wfParChildren env fuel rest input { c2 with stepId := c.stepId } with
          | mk rs c3 =>
              have hv := ((exec_preserves_vars env fuel).1 s input
                { c with stepId := s.idOf }).1
              have hv2 := ih input { c2 with stepId := c.stepId }
              rw [hes] at hv
              rw [hps] at hv2
              dsimp only at hv hv2 ⊢
              exact hv2.trans hv

/-- For a leaf (agent- or tool-type) step, the dispatch returns the
context it was given unchanged on every path. -/
theorem execDispatch_leaf (env : Env) (fuel : Nat) (s : StepK) (input : Val)
    (c1 : Ctx) (hleaf : s.meta.type = .agent ∨ s.meta.type = .tool) :
    (execDispatch env fuel s input c1).2 = c1 := by
  cases fuel with
  | zero => rfl
  | succ f =>
      rcases hleaf with hty | hty <;> simp only [execDispatch, hty]
      · cases s.meta.agentId with
        | none => rfl
        | some aid =>
            dsimp only
            cases mapGet env.agents aid with
            | none => rfl
            | some fn => rfl
      · cases s.meta.toolName with
        | none => rfl
        | some tn =>
            dsimp only
            cases mapGet env.tools tn with
            | none => rfl
            | some h => rfl

/-- A *successful* leaf step only appends one finalized history record:
its own, carrying its input and output. -/
theorem execStep_leaf_ok (env : Env) (fuel : Nat) (s : StepK) (input : Val)
    (c : Ctx) (v : Val) (c2 : Ctx)
    (hleaf : s.meta.type = .agent ∨ s.meta.type = .tool)
    (hok : execStep env fuel s input c = (.ok v, c2)) :
    c2 = { c with history := c.history ++
      [{ stepId := s.idOf, agentId := s.meta.agentId, input := input,
         output := some v, error := none }] } := by
  cases fuel with
  | zero => simp [execStep] at hok
  | succ f =>
      simp only [execStep] at hok
      have hd := execDispatch_leaf env f s input
        { c with history := c.history ++ [startRec s input] } hleaf
      cases hp : execDispatch env f s input
          { c with history := c.history ++ [startRec s input] } with
      | mk r cD =>
          rw [hp] at hok hd
          replace hd : cD = { c with history := c.history ++ [startRec s input] } := hd
          subst hd
          cases r with
          | error e => simp [finalizeStep] at hok
          | ok v' =>
              simp only [finalizeStep, Prod.mk.injEq, Except.ok.injEq] at hok
              obtain ⟨rfl, hc⟩ := hok
              rw [← hc, set_append_singleton]
              rfl

/-- A fully successful leaf-step sequential run computes exactly: the
final result is the last output (the seed if there are no steps), the
history gains one record per step in declaration order with the
threaded inputs, and the variables gain one write per step id. -/
theorem wfSeq_of_seqRun (env : Env) (fuel : Nat) (all : List StepK) :
    ∀ (steps : List StepK) (input : Val) (c : Ctx) (outs : List Val) (c' : Ctx),
      SeqRun env fuel steps input c outs c' →
      wfSeq env all fuel steps input c = (.ok (outs.getLastD input), c')
      ∧ outs.length = steps.length
      ∧ c'.history = c.history ++ leafRecords steps input outs
      ∧ c'.vars = writeVars steps outs c.vars
      ∧ c'.stepId = (steps.map StepK.idOf).getLastD c.stepId := by
  intro steps input c outs c' hrun
  induction hrun with
  | nil input c => simp [wfSeq, leafRecords, writeVars]
  | cons s rest input c v c2 outs c3 hleaf hstep htail ih =>
      obtain ⟨ih1, ih2, ih3, ih4, ih5⟩ := ih
      have hc2 := execStep_leaf_ok env fuel s input { c with stepId := s.idOf } v c2
        hleaf hstep
      refine ⟨?_, by simpa using ih2, ?_, ?_, ?_⟩
      · rw [wfSeq, hstep]
        dsimp only
        rw [ih1, List.getLastD_cons]
      · rw [ih3, hc2]
        simp [leafRecords]
      · rw [ih4, hc2]
        simp [writeVars, hc2]
      · rw [ih5, hc2]
        rw [List.map_cons, List.getLastD_cons]

/-- `writeVars` leaves keys it does not write untouched. -/
theorem mapGet_writeVars_not_mem :
    ∀ (steps : List StepK) (outs : List Val) (m : List (String × Val)) (k : String),
      k ∉ steps.map StepK.idOf → mapGet (writeVars steps outs m) k = mapGet m k := by
  intro steps
  induction steps with
  | nil => intro outs m k _; rfl
  | cons s rest ih =>
      intro outs m k hk
      cases outs with
      | nil => rfl
      | cons v os =>
          simp only [List.map_cons, List.mem_cons, not_or] at hk
          obtain ⟨hk1, hk2⟩ := hk
          rw [writeVars, ih os _ k hk2, mapGet_mapSet_ne _ _ _ _ hk1]

/-- After a sequential run with pairwise distinct step ids, each step
id maps to that step's output. -/
theorem mapGet_writeVars_mem :
    ∀ (steps : List StepK) (outs : List Val) (m : List (String × Val))
      (s : StepK) (v : Val),
      (steps.map StepK.idOf).Nodup → (s, v) ∈ steps.zip outs →
      mapGet (writeVars steps outs m) s.idOf = some v := by
  intro steps
  induction steps with
  | nil => intro outs m s v _ hmem; simp [List.zip] at hmem
  | cons s0 rest ih =>
      intro outs m s v hnd hmem
      cases outs with
      | nil => simp [List.zip] at hmem
      | cons v0 os =>
          simp only [List.zip_cons_cons, List.mem_cons] at hmem
          simp only [List.map_cons, List.nodup_cons] at hnd
          obtain ⟨hnd1, hnd2⟩ := hnd
          rcases hmem with heq | hmem
          · obtain ⟨rfl, rfl⟩ := Prod.mk.injEq .. ▸ heq
            rw [writeVars, mapGet_writeVars_not_mem rest os _ _ hnd1,
              mapGet_mapSet_self]
          · rw [writeVars]
            exact ih os (mapSet m s0.idOf v0) s v hnd2 hmem

/-- One record per step in a full leaf run. -/
theorem leafRecords_length :
    ∀ (steps : List StepK) (inp : Val) (outs : List Val),
      outs.length = steps.length →
      (leafRecords steps inp outs).length = steps.length := by
  intro steps
  induction steps with
  | nil => intro inp outs _; cases outs <;> rfl
  | cons s rest ih =>
      intro inp outs hlen
      cases outs with
      | nil => simp at hlen
      | cons v os =>
          simp only [List.length_cons] at hlen
          simp [leafRecords, ih v os (by omega)]

/-- C1 (amended): for a sequential Workflow whose steps are all leaf
(agent- or tool-type) steps and all succeed, `Workflow.execute` runs
the steps strictly in declaration order — the first step receiving
`context.variables.input`, each later step the previous step's result,
as the per-step history records show — and afterwards `context.history`
has gained exactly N finalized records (one per step, in order) and
`context.variables` maps each step id to that step's output (when step
ids are pairwise distinct).  Steps that execute nested children (loop,
parallel, condition branches) append additional history records — see
the counterexample — so exactly-N holds for leaf steps. -/
theorem workflow_sequential_run (env : Env) (fuel : Nat) (w : WorkflowK)
    (c : Ctx) (outs : List Val) (c' : Ctx)
    (hpar : w.parallel = false)
    (hrun : SeqRun env fuel w.steps ((mapGet c.vars "input").getD .undef) c outs c') :
    WorkflowK.exec env fuel w c =
      (.ok (outs.getLastD ((mapGet c.vars "input").getD .undef)), c')
    ∧ outs.length = w.steps.length
    ∧ c'.history = c.history ++ leafRecords w.steps ((mapGet c.vars "input").getD .undef) outs
    ∧ c'.history.length = c.history.length + w.steps.length
    ∧ c'.vars = writeVars w.steps outs c.vars
    ∧ ((w.steps.map StepK.idOf).Nodup →
        ∀ s v, (s, v) ∈ w.steps.zip outs → mapGet c'.vars s.idOf = some v) := by
  obtain ⟨h1, h2, h3, h4, h5⟩ := wfSeq_of_seqRun env fuel w.steps w.steps
    ((mapGet c.vars "input").getD .undef) c outs c' hrun
  refine ⟨?_, h2, h3, ?_, h4, ?_⟩
  · rw [WorkflowK.exec, hpar]
    simpa using h1
  · rw [h3]
    simp [leafRecords_length w.steps _ outs h2]
  · intro hnd s v hmem
    rw [h4]
    exact mapGet_writeVars_mem w.steps outs c.vars s v hnd hmem

/-- Witness for `workflow_sequential_run`: a two-agent-step sequential
workflow on input "go", producing outputs "re:go" and "re:re:go". -/
theorem workflow_sequential_run_witness :
    WorkflowK.exec seqEnv 10 seqW seqC0 = (.ok (.vstr "re:re:go"), seqCF)
    ∧ seqOuts.length = seqW.steps.length
    ∧ seqCF.history = seqC0.history ++ leafRecords seqW.steps (.vstr "go") seqOuts
    ∧ seqCF.history.length = seqC0.history.length + seqW.steps.length
    ∧ seqCF.vars = writeVars seqW.steps seqOuts seqC0.vars
    ∧ ((seqW.steps.map StepK.idOf).Nodup →
        ∀ s v, (s, v) ∈ seqW.steps.zip seqOuts → mapGet seqCF.vars s.idOf = some v) := by
  have hrun : SeqRun seqEnv 10 seqW.steps ((mapGet seqC0.vars "input").getD .undef)
      seqC0 seqOuts seqCF :=
    SeqRun.cons _ _ _ _ _ _ _ _ (Or.inl rfl) rfl
      (SeqRun.cons _ _ _ _ _ _ _ _ (Or.inl rfl) rfl (SeqRun.nil _ _))
  exact workflow_sequential_run seqEnv 10 seqW seqC0 seqOuts seqCF rfl hrun

/-- C1 counterexample (for the claim as frozen): a sequential Workflow
of N = 1 steps that all succeed — a loop step with one nested agent
step — after which `context.history` has 2 records, not N = 1: the
nested step's execution appends its own record. -/
theorem workflow_sequential_history_counterexample :
    isErr (WorkflowK.exec seqEnv 10 loopW seqC0).1 = false
    ∧ loopW.steps.length = 1
    ∧ (WorkflowK.exec seqEnv 10 loopW seqC0).2.history.length = 2 :=
  ⟨rfl, rfl, rfl⟩

/-- C2: in a sequential Workflow, when a step throws and declares
`onFailure` naming another step found in the same workflow's step list,
the named step is executed with the thrown error value itself as input
and workflow execution continues from its result (and completes with it
when no steps remain) rather than propagating the error; if the step
declares no `onFailure`, or the named step is not in the list, the
error propagates and ends the workflow. -/
theorem workflow_onFailure_recovery (env : Env) (fuel : Nat) (all : List StepK)
    (s : StepK) (rest : List StepK) (input : Val) (c : Ctx) (e : Val) (c2 : Ctx)
    (hfail : execStep env fuel s input { c with stepId := s.idOf } = (.error e, c2)) :
    (∀ fid fs v c3,
       s.meta.onFailure = some fid →
       findStep all fid = some fs →
       execStep env fuel fs e { c2 with stepId := fs.idOf } = (.ok v, c3) →
       wfSeq env all fuel (s :: rest) input c = wfSeq env all fuel rest v c3
       ∧ (rest = [] → wfSeq env all fuel (s :: rest) input c = (.ok v, c3)))
    ∧ (s.meta.onFailure = none →
       wfSeq env all fuel (s :: rest) input c = (.error e, c2))
    ∧ (∀ fid, s.meta.onFailure = some fid → findStep all fid = none →
       wfSeq env all fuel (s :: rest) input c = (.error e, c2)) := by
  refine ⟨?_, ?_, ?_⟩
  · intro fid fs v c3 hof hfind hrec
    have hmain : wfSeq env all fuel (s :: rest) input c = wfSeq env all fuel rest v c3 := by
      rw [wfSeq, hfail]
      dsimp only
      rw [hof]
      dsimp only
      rw [hfind]
      dsimp only
      rw [hrec]
    refine ⟨hmain, fun hrest => ?_⟩
    subst hrest
    rw [hmain, wfSeq]
  · intro hof
    rw [wfSeq, hfail]
    dsimp only
    rw [hof]
  · intro fid hof hfind
    rw [wfSeq, hfail]
    dsimp only
    rw [hof]
    dsimp only
    rw [hfind]

/-- Witness for `workflow_onFailure_recovery`: a tool step that throws,
with `onFailure = "recover"` resolving to a recovery tool step that
wraps its input (the error) in an array; the one-step workflow
completes with the recovery output. -/
theorem workflow_onFailure_recovery_witness :
    wfSeq recEnv [recSb, recSr] 10 [recSb] (.vstr "go") recC0 =
      wfSeq recEnv [recSb, recSr] 10 [] (.varr [.verr 7 "kaput"]) recC3
    ∧ wfSeq recEnv [recSb, recSr] 10 [recSb] (.vstr "go") recC0 =
      (.ok (.varr [.verr 7 "kaput"]), recC3) := by
  have h := (workflow_onFailure_recovery recEnv 10 [recSb, recSr] recSb []
    (.vstr "go") recC0 (.verr 7 "kaput") recC2 rfl).1 "recover" recSr
    (.varr [.verr 7 "kaput"]) recC3 rfl rfl rfl
  exact ⟨h.1, h.2 rfl⟩

/-- The parallel fan-out produces exactly one outcome per nested step,
keyed by its id, in declaration order. -/
theorem execParChildren_ids (env : Env) :
    ∀ (steps : List StepK) (fuel : Nat) (input : Val) (c : Ctx),
      ((execParChildren env fuel steps input c).1).map (fun r => r.1) =
        steps.map StepK.idOf := by
  intro steps
  induction steps with
  | nil => intro fuel input c; cases fuel <;> rfl
  | cons s rest ih =>
      intro fuel input c
      cases fuel with
      | zero => simp [execParChildren, List.map_map, Function.comp]
      | succ f =>
          simp only [execParChildren]
          cases hes : execStep env f s input c with
          | mk r c2 =>
              cases hps : execParChildren env f rest input c2 with
              | mk rs c3 =>
                  have hids := ih f input c2
                  rw [hps] at hids
                  simpa using hids

/-- C4 (amended): a parallel-type step with a non-empty nested list
executes every nested step against the same input, producing one
outcome per nested step id; if any nested step failed, the step fails
with an aggregate error whose message carries the count and the ids of
exactly the failed nested steps (no successful child's result appears
in the returned value); if all succeed, it returns a mapping from
nested step id to that child's result restricted to the children whose
result is not `null` — a child succeeding with `null` is omitted from
the mapping (see the counterexample). -/
theorem step_parallel_aggregate (env : Env) (fuel : Nat) (s : StepK)
    (input : Val) (c : Ctx) (results : List (String × Except Val Val)) (c2 : Ctx)
    (hty : s.meta.type = .parallel)
    (hsub : s.substeps ≠ [])
    (hchild : execParChildren env fuel s.substeps input
      { c with history := c.history ++ [startRec s input] } = (results, c2)) :
    results.map (fun r => r.1) = s.substeps.map StepK.idOf
    ∧ (results.filter (fun r => isErr r.2) ≠ [] →
        (execStep env (fuel + 2) s input c).1 =
          .error (.verr 0 (toString (results.filter (fun r => isErr r.2)).length
            ++ " parallel steps failed: "
            ++ String.intercalate ", "
              ((results.filter (fun r => isErr r.2)).map (fun r => r.1)))))
    ∧ (results.filter (fun r => isErr r.2) = [] →
        (execStep env (fuel + 2) s input c).1 =
          .ok (.vobj (results.filterMap (fun r =>
            match r.2 with
            | .ok v => if isVNull v then none else some (r.1, v)
            | .error _ => none)))) := by
  have hids : results.map (fun r => r.1) = s.substeps.map StepK.idOf := by
    have h := execParChildren_ids env s.substeps fuel input
      { c with history := c.history ++ [startRec s input] }
    rw [hchild] at h
    exact h
  have hfst := (finalizeStep_parts (startRec s input) c.history.length
    (execDispatch env (fuel + 1) s input
      { c with history := c.history ++ [startRec s input] })).1
  have hexec : (execStep env (fuel + 2) s input c).1 =
      (execDispatch env (fuel + 1) s input
        { c with history := c.history ++ [startRec s input] }).1 := hfst
  cases hss : s.substeps with
  | nil => exact absurd hss hsub
  | cons s0 rest =>
      rw [hss] at hchild
      have hdisp : execDispatch env (fuel + 1) s input
          { c with history := c.history ++ [startRec s input] } =
          (if ((results.filter (fun r => isErr r.2)).isEmpty) then
            (.ok (.vobj (results.filterMap (fun r =>
              match r.2 with
              | .ok v => if isVNull v then none else some (r.1, v)
              | .error _ => none))), c2)
          else
            (.error (.verr 0 (toString (results.filter (fun r => isErr r.2)).length
              ++ " parallel steps failed: "
              ++ String.intercalate ", "
                ((results.filter (fun r => isErr r.2)).map (fun r => r.1)))), c2)) := by
        simp only [execDispatch, hty, hss]
        rw [hchild]
      rw [hss] at hids
      refine ⟨hids, ?_, ?_⟩
      · intro hne
        rw [hexec, hdisp, if_neg]
        simp [List.isEmpty_iff, hne]
      · intro heq
        rw [hexec, hdisp, if_pos]
        simp [List.isEmpty_iff, heq]

/-- C4 counterexample (for the claim as frozen): a parallel step whose
children all succeed, child "A" returning `null` and child "B"
returning "x": the fan-out records both successes, but the returned
mapping omits "A" — the combine loop skips `null` results —
contradicting "a mapping from nested step id to that child's
result". -/
theorem step_parallel_null_omitted_counterexample :
    (execParChildren nullEnv 8 [nullPa, nullPb] (.vstr "in") nullC1).1 =
      [("A", .ok .vnull), ("B", .ok (.vstr "x"))]
    ∧ (execStep nullEnv 10 nullPp (.vstr "in") nullC0).1 =
        .ok (.vobj [("B", .vstr "x")]) :=
  ⟨rfl, rfl⟩

/-- Witness for `step_parallel_aggregate`: children "A" (succeeds with
"ra") and "C" (throws): the step fails with the aggregate error naming
exactly ["C"], and A's result is absent from the returned value. -/
theorem step_parallel_aggregate_witness :
    ((execParChildren parEnv 8 [parChildA, parChildC] (.vstr "in") parCtx1).1).map
      (fun r => r.1) = ["A", "C"]
    ∧ (execStep parEnv 10 parStep (.vstr "in") parCtx0).1 =
        .error (.verr 0 "1 parallel steps failed: C") := by
  have h := step_parallel_aggregate parEnv 8 parStep (.vstr "in") parCtx0
    (execParChildren parEnv 8 [parChildA, parChildC] (.vstr "in") parCtx1).1
    (execParChildren parEnv 8 [parChildA, parChildC] (.vstr "in") parCtx1).2
    rfl (by simp [parStep, StepK.substeps]) rfl
  exact ⟨h.1, h.2.1 (List.cons_ne_nil _ _)⟩

/-- C5 (amended): for a parallel Workflow in which at least one
top-level step fails, `Workflow.execute` fails with an aggregate error
listing the count and ids of the failed steps, and **no** step's result
— including the successful siblings' — is written into
`context.variables`: the aggregate throw happens before the combine
loop that performs the variable writes, so the variables are exactly as
before the call (the successful siblings' history records remain). -/
theorem workflow_parallel_partial_failure (env : Env) (fuel : Nat)
    (w : WorkflowK) (c : Ctx) (results : List (String × Except Val Val))
    (c2 : Ctx)
    (hpar : w.parallel = true)
    (hchild : wfParChildren env fuel w.steps ((mapGet c.vars "input").getD .undef) c
      = (results, c2))
    (hfail : results.filter (fun r => isErr r.2) ≠ []) :
    WorkflowK.exec env fuel w c =
      (.error (.verr 0 (toString (results.filter (fun r => isErr r.2)).length
        ++ " steps failed: "
        ++ String.intercalate ", "
          ((results.filter (fun r => isErr r.2)).map (fun r => r.1)))), c2)
    ∧ c2.vars = c.vars := by
  constructor
  · rw [WorkflowK.exec]
    simp only [hpar, if_true]
    rw [wfParallel]
    rw [hchild]
    dsimp only
    rw [if_neg]
    simp [List.isEmpty_iff, hfail]
  · have h := wfParChildren_preserves_vars env fuel w.steps
      ((mapGet c.vars "input").getD .undef) c
    rw [hchild] at h
    exact h

/-- C5 counterexample (for the claim as frozen): a parallel workflow
with step "A" succeeding (output "x") and step "B" throwing: the call
fails with the aggregate error naming "B", step "A"'s output sits in
its history record — it was computed — yet `context.variables` has
**no** entry for "A": the claim that successful siblings' results
remain written into `context.variables` is false, nothing is written on
the failure path. -/
theorem workflow_parallel_vars_counterexample :
    (WorkflowK.exec wpEnv 10 wpWorkflow wpCtx0).1 =
      .error (.verr 0 "1 steps failed: B")
    ∧ mapGet (WorkflowK.exec wpEnv 10 wpWorkflow wpCtx0).2.vars "A" = none
    ∧ (WorkflowK.exec wpEnv 10 wpWorkflow wpCtx0).2.vars = wpCtx0.vars
    ∧ ((WorkflowK.exec wpEnv 10 wpWorkflow wpCtx0).2.history.map
        (fun h => (h.stepId, h.output))) =
        [("A", some (.vstr "x")), ("B", none)] := by
  refine ⟨?_, ?_, ?_, ?_⟩ <;> rfl

/-- Witness for `workflow_parallel_partial_failure` at the same
concrete workflow as the counterexample. -/
theorem workflow_parallel_partial_failure_witness :
    WorkflowK.exec wpEnv 10 wpWorkflow wpCtx0 =
      (.error (.verr 0 "1 steps failed: B"),
       (wfParChildren wpEnv 10 wpWorkflow.steps (.vstr "go") wpCtx0).2)
    ∧ (wfParChildren wpEnv 10 wpWorkflow.steps (.vstr "go") wpCtx0).2.vars =
        wpCtx0.vars := by
  have h := workflow_parallel_partial_failure wpEnv 10 wpWorkflow wpCtx0
    (wfParChildren wpEnv 10 wpWorkflow.steps (.vstr "go") wpCtx0).1
    (wfParChildren wpEnv 10 wpWorkflow.steps (.vstr "go") wpCtx0).2
    rfl rfl (List.cons_ne_nil _ _)
  exact h

end Orchestrator
